import Mathlib

/-
Verification development for the Blokus board/piece generator
(source: blokus_builder.py).  The Python functions relevant to the
claims are shallowly embedded as executable Lean definitions: physical
dimensions become rationals, Python lists become Lean lists, dict
insertion order is modelled by association lists that preserve
insertion order, and code that can raise returns a PyResult.
-/

/-- Identifiers for the four messages validate_params can append,
in the order the source checks them.  The formatted message text is
presentation only; what matters is which messages are present. -/
inductive Msg where
  | remainingWall
  | clearNeg
  | clearLarge
  | grooveTooNarrow
deriving DecidableEq, Repr

/-- The BLK_Properties parameter record.  Field defaults mirror the
default values declared on each property in the source. -/
structure Params where
  cell : ℚ := 20
  clear : ℚ := 0.20
  board_t : ℚ := 1.8
  rib_w : ℚ := 1.2
  rib_h : ℚ := 0.9
  frame_w : ℚ := 8
  piece_t : ℚ := 3.2
  bevel_top : ℚ := 0.4
  bevel_bottom : ℚ := 0.2
  split_x : Nat := 2
  split_y : Nat := 2
  dowel_d : ℚ := 6
  dowel_len : ℚ := 4
  dowel_clear : ℚ := 0.2
  layout_gap : ℚ := 2
deriving DecidableEq, Repr

/-- Embedding of validate_params: four checks appending messages in
source order; ok is the test that the message list is empty. -/
def validate_params (p : Params) : Bool × List Msg :=
  let groove_w := p.rib_w + 2 * p.clear
  let groove_d := p.rib_h + 0.25
  let remaining := p.piece_t - groove_d
  let msgs : List Msg :=
    (if remaining < 1.6 then [Msg.remainingWall] else []) ++
    (if p.clear < 0 then [Msg.clearNeg] else []) ++
    (if p.clear > 0.35 then [Msg.clearLarge] else []) ++
    (if groove_w ≤ p.rib_w then [Msg.grooveTooNarrow] else [])
  (msgs.length == 0, msgs)

/-- The default parameter record (all BLK_Properties defaults). -/
def defaultParams : Params := {}

/-- A parameter record whose only deviation from the defaults is a
clearance of 0.4 mm (above the 0.35 mm usability threshold). -/
def clear04 : Params := { clear := 0.4 }

/-- C8: validate_params rejects every record whose remaining wall
piece_t - (rib_h + 0.25) is below 1.6 mm, rejects every record whose
groove width rib_w + 2*clear is at most rib_w, and accepts the
documented defaults with ok = true and no messages. -/
theorem validate_params_spec :
    (∀ p : Params, p.piece_t - (p.rib_h + 0.25) < 1.6 → (validate_params p).1 = false) ∧
    (∀ p : Params, p.rib_w + 2 * p.clear ≤ p.rib_w → (validate_params p).1 = false) ∧
    validate_params defaultParams = (true, []) := by
  refine ⟨?_, ?_, by norm_num [validate_params, defaultParams]⟩
  · intro p h
    simp only [validate_params, if_pos h]
    split_ifs <;> simp
  · intro p h
    simp only [validate_params, if_pos h]
    split_ifs <;> simp

/-- Witness for C8: a record with piece_t = 1.5 (remaining wall
0.35 mm) is rejected, and a record with clear = 0 (groove width equal
to rib width) is rejected. -/
theorem validate_params_spec_witness :
    (validate_params { piece_t := 1.5 }).1 = false ∧
    (validate_params { clear := 0 }).1 = false :=
  ⟨validate_params_spec.1 { piece_t := 1.5 } (by norm_num),
   validate_params_spec.2.1 { clear := 0 } (by norm_num)⟩

/-- C1 counterexample: for the record whose only deviation is
clearance 0.4 > 0.35 mm, validate_params returns ok = false (with the
rattle message), not ok = true as the claim states: the warning is not
distinguished from hard errors. -/
theorem clearance_warning_blocks :
    validate_params clear04 = (false, [Msg.clearLarge]) := by
  norm_num [validate_params, clear04]

/-- C1 (amended): clearance above 0.35 mm emits the rattle message,
but since ok is defined as the message list being empty, validate_params
reports ok = false, so generation is blocked exactly as for hard
errors. -/
theorem clearance_above_limit_not_ok (p : Params) (h : p.clear > 0.35) :
    (validate_params p).1 = false ∧ Msg.clearLarge ∈ (validate_params p).2 := by
  simp only [validate_params, if_pos h]
  constructor
  · split_ifs <;> simp
  · split_ifs <;> simp

/-- Witness for the amended C1 at the concrete clearance-0.4 record. -/
theorem clearance_above_limit_not_ok_witness :
    (validate_params clear04).1 = false ∧ Msg.clearLarge ∈ (validate_params clear04).2 :=
  clearance_above_limit_not_ok clear04 (by norm_num [clear04])

/-
Outline extractor: embedding of cells_to_outline.  Grid cells and
vertices are integer pairs.  The Python dict edge_count and the
defaultdict adjacency map preserve insertion order, so they are
modelled by association lists that keep first-insertion order; the
while-loop is modelled with fuel boundary.length + 1, which suffices
because every successful iteration consumes one more distinct boundary
edge, exactly as in the source.
-/

/-- A unit grid cell, identified by the integer coordinates of its
lower-left corner. -/
abbrev Cell := Int × Int

/-- A grid vertex. -/
abbrev Vertex := Int × Int

/-- An undirected unit edge, stored by its sorted key. -/
abbrev Edge := Vertex × Vertex

/-- Python tuple comparison on integer pairs (lexicographic). -/
def vertexLt (a b : Vertex) : Bool := a.1 < b.1 || (a.1 == b.1 && a.2 < b.2)

/-- tuple(sorted(e)): canonical key of an undirected edge. -/
def edgeKey (a b : Vertex) : Edge := if vertexLt b a then (b, a) else (a, b)

/-- The four unit edges of the square at a cell, in source order
(bottom, right, top, left), each as its sorted key. -/
def cellEdges (c : Cell) : List Edge :=
  [ edgeKey (c.1, c.2) (c.1 + 1, c.2),
    edgeKey (c.1 + 1, c.2) (c.1 + 1, c.2 + 1),
    edgeKey (c.1, c.2 + 1) (c.1 + 1, c.2 + 1),
    edgeKey (c.1, c.2) (c.1, c.2 + 1) ]

/-- Increment the count of a key in an insertion-ordered association
list (defaultdict(int) whose iteration preserves insertion order). -/
def bumpCount (l : List (Edge × Nat)) (k : Edge) : List (Edge × Nat) :=
  match l with
  | [] => [(k, 1)]
  | (k', c) :: t => if k' = k then (k', c + 1) :: t else (k', c) :: bumpCount t k

/-- edge_count: multiplicity of every unit edge over all cells. -/
def edgeCounts (cells : List Cell) : List (Edge × Nat) :=
  cells.foldl (fun acc c => (cellEdges c).foldl bumpCount acc) []

/-- boundary: the edges of multiplicity one, in insertion order. -/
def boundaryEdges (cells : List Cell) : List Edge :=
  ((edgeCounts cells).filter (fun ec => ec.2 == 1)).map (fun ec => ec.1)

/-- Append a neighbour to the adjacency list of a vertex
(defaultdict(list) with per-key append order preserved). -/
def adjAppend (l : List (Vertex × List Vertex)) (k v : Vertex) : List (Vertex × List Vertex) :=
  match l with
  | [] => [(k, [v])]
  | (k', vs) :: t => if k' = k then (k', vs ++ [v]) :: t else (k', vs) :: adjAppend t k v

/-- adj: neighbour lists over the endpoints of the boundary edges. -/
def buildAdj (boundary : List Edge) : List (Vertex × List Vertex) :=
  boundary.foldl (fun acc e => adjAppend (adjAppend acc e.1 e.2) e.2 e.1) []

/-- Lookup in the adjacency map, defaulting to the empty list. -/
def adjGet (l : List (Vertex × List Vertex)) (k : Vertex) : List Vertex :=
  match l.find? (fun kv => kv.1 == k) with
  | some kv => kv.2
  | none => []

/-- The inner for-loop of the walk: the first neighbour of current
whose connecting edge is not yet visited. -/
def findNext (adj : List (Vertex × List Vertex)) (visited : List Edge) (current : Vertex) :
    Option Vertex :=
  (adjGet adj current).find? (fun nb => !(visited.contains (edgeKey current nb)))

/-- The while-loop of cells_to_outline. -/
def walkLoop (adj : List (Vertex × List Vertex)) :
    Nat → Vertex → List Edge → List Vertex → List Vertex
  | 0, _, _, loop => loop
  | fuel + 1, current, visited, loop =>
    match findNext adj visited current with
    | none => loop
    | some nb => walkLoop adj fuel nb (edgeKey current nb :: visited) (loop ++ [nb])

/-- Embedding of cells_to_outline: boundary edges, adjacency walk from
the first endpoint of the first boundary edge, duplicate closing
vertex dropped. -/
def cells_to_outline (cells : List Cell) : List Vertex :=
  let boundary := boundaryEdges cells
  match boundary with
  | [] => []
  | e :: _ =>
    let start := e.1
    let adj := buildAdj boundary
    let loop := walkLoop adj (boundary.length + 1) start [] [start]
    if 1 < loop.length ∧ loop.getLastD start = loop.headD start then loop.dropLast else loop

/-- The edges of the closed polygon given by a vertex loop
(consecutive pairs plus the wrap-around edge), as sorted keys. -/
def loopEdges (loop : List Vertex) : List Edge :=
  match loop with
  | [] => []
  | v :: _ => (List.zip loop (loop.drop 1 ++ [v])).map (fun ab => edgeKey ab.1 ab.2)

/-- Twice the signed enclosed area of a closed vertex loop, by the
shoelace formula. -/
def twiceArea (loop : List Vertex) : Int :=
  match loop with
  | [] => 0
  | v :: _ =>
    (List.zip loop (loop.drop 1 ++ [v])).foldl
      (fun s ab => s + (ab.1.1 * ab.2.2 - ab.2.1 * ab.1.2)) 0

/-- Single simple closed polygon check for the outline of a cell set:
the loop is nonempty and free of repeated vertices, its closed edge
cycle is exactly the set of boundary edges, and twice the enclosed
area is twice the number of cells. -/
def outlineOk (cells : List Cell) : Bool :=
  let loop := cells_to_outline cells
  let bd := boundaryEdges cells
  let le := loopEdges loop
  decide loop.Nodup &&
  !loop.isEmpty &&
  le.length == bd.length &&
  bd.all (fun e => le.contains e) &&
  le.all (fun e => bd.contains e) &&
  (twiceArea loop).natAbs == 2 * cells.length

/-- The 21-shape catalogue, exactly as listed in the source. -/
def PIECES : List (String × List Cell) := [
  ("I1", [(0, 0)]),
  ("I2", [(0, 0), (1, 0)]),
  ("I3", [(0, 0), (1, 0), (2, 0)]),
  ("L3", [(0, 0), (1, 0), (1, 1)]),
  ("I4", [(0, 0), (1, 0), (2, 0), (3, 0)]),
  ("L4", [(0, 0), (1, 0), (2, 0), (2, 1)]),
  ("T4", [(0, 0), (1, 0), (2, 0), (1, 1)]),
  ("O4", [(0, 0), (1, 0), (0, 1), (1, 1)]),
  ("S4", [(0, 0), (1, 0), (1, 1), (2, 1)]),
  ("F5", [(1, 0), (2, 0), (0, 1), (1, 1), (1, 2)]),
  ("I5", [(0, 0), (1, 0), (2, 0), (3, 0), (4, 0)]),
  ("L5", [(0, 0), (1, 0), (2, 0), (3, 0), (3, 1)]),
  ("N5", [(0, 0), (1, 0), (1, 1), (2, 1), (3, 1)]),
  ("P5", [(0, 0), (1, 0), (0, 1), (1, 1), (0, 2)]),
  ("T5", [(0, 0), (1, 0), (2, 0), (1, 1), (1, 2)]),
  ("U5", [(0, 0), (2, 0), (0, 1), (1, 1), (2, 1)]),
  ("V5", [(0, 0), (0, 1), (0, 2), (1, 2), (2, 2)]),
  ("W5", [(0, 0), (0, 1), (1, 1), (1, 2), (2, 2)]),
  ("X5", [(1, 0), (0, 1), (1, 1), (2, 1), (1, 2)]),
  ("Y5", [(0, 0), (1, 0), (2, 0), (3, 0), (1, 1)]),
  ("Z5", [(0, 0), (1, 0), (1, 1), (1, 2), (2, 2)])
]

/-- C5: for every shape in the 21-shape catalogue, cells_to_outline
returns a single simple closed polygon: no repeated vertex, the closed
edge cycle covers exactly the boundary edges, and the enclosed area
equals the cell count of the shape. -/
theorem catalogue_outlines_ok : ∀ pr ∈ PIECES, outlineOk pr.2 = true := by decide

/-- Witness for C5 at the monomino I1. -/
theorem catalogue_outlines_ok_witness : outlineOk [(0, 0)] = true :=
  catalogue_outlines_ok ("I1", [(0, 0)]) (by decide)

/-- A disconnected cell set: two unit cells with a gap between them. -/
def discCells : List Cell := [(0, 0), (2, 0)]

/-- A 3x3 ring of cells with a hole at the centre. -/
def ringCells : List Cell :=
  [(0, 0), (1, 0), (2, 0), (0, 1), (2, 1), (0, 2), (1, 2), (2, 2)]

/-- C3 counterexample: on the disconnected cell set the extractor does
not fail: it silently returns the closed 4-vertex loop around the
first cell, leaving the other 4 of the 8 boundary edges uncovered. -/
theorem outline_disconnected_no_error :
    cells_to_outline discCells = [(0, 0), (1, 0), (1, 1), (0, 1)] ∧
    (boundaryEdges discCells).length = 8 := by decide

/-- C3 (amended): cells_to_outline has no failure path at all: it
always returns a vertex list.  On a disconnected cell set and on a
cell set with a hole it silently returns one closed loop whose edges
are a strict subset of the boundary (the loop is shorter than the
boundary, and every loop edge is a boundary edge). -/
theorem outline_malformed_silent_incomplete :
    (cells_to_outline discCells).length < (boundaryEdges discCells).length ∧
    (loopEdges (cells_to_outline discCells)).all
      (fun e => (boundaryEdges discCells).contains e) = true ∧
    (cells_to_outline ringCells).length < (boundaryEdges ringCells).length ∧
    (loopEdges (cells_to_outline ringCells)).all
      (fun e => (boundaryEdges ringCells).contains e) = true := by decide

/-
Groove cutter builder: embedding of get_grid_lines_for_piece and
make_groove_cutter.  Python min()/max() raise ValueError on an empty
sequence; a raised exception is modelled by the exn constructor of
PyResult.  A cutter bar records the centre location and the (applied)
scale of one primitive cube.
-/

/-- Outcome of a Python call: a value, or a raised exception with its
message. -/
inductive PyResult (α : Type) where
  | ok (a : α)
  | exn (msg : String)
deriving DecidableEq, Repr

/-- One groove cutter bar: the centre location and the size of one
primitive cube after its scale is applied. -/
structure Bar where
  x : ℚ
  y : ℚ
  z : ℚ
  sx : ℚ
  sy : ℚ
  sz : ℚ
deriving DecidableEq, Repr

/-- min(xs) over the first coordinates of a nonempty cell list. -/
def cellsMinX (c : Cell) (cs : List Cell) : Int := cs.foldl (fun m q => min m q.1) c.1

/-- max(xs) over the first coordinates of a nonempty cell list. -/
def cellsMaxX (c : Cell) (cs : List Cell) : Int := cs.foldl (fun m q => max m q.1) c.1

/-- min(ys) over the second coordinates of a nonempty cell list. -/
def cellsMinY (c : Cell) (cs : List Cell) : Int := cs.foldl (fun m q => min m q.2) c.2

/-- max(ys) over the second coordinates of a nonempty cell list. -/
def cellsMaxY (c : Cell) (cs : List Cell) : Int := cs.foldl (fun m q => max m q.2) c.2

/-- list(range(lo, hi)) over integers. -/
def intRange (lo hi : Int) : List Int :=
  (List.range (hi - lo).toNat).map (fun (i : Nat) => lo + (i : Int))

/-- The grid line indices spanned by a nonempty cell list, outer
boundaries included (the core of get_grid_lines_for_piece). -/
def grid_lines (c : Cell) (cs : List Cell) : List Int × List Int :=
  (intRange (cellsMinX c cs) (cellsMaxX c cs + 2),
   intRange (cellsMinY c cs) (cellsMaxY c cs + 2))

/-- Embedding of get_grid_lines_for_piece; min() over the empty cell
list raises ValueError. -/
def get_grid_lines_for_piece (cells : List Cell) : PyResult (List Int × List Int) :=
  match cells with
  | [] => PyResult.exn "ValueError: min() arg is an empty sequence"
  | c :: cs => PyResult.ok (grid_lines c cs)

/-- The bar placed on one X grid line (running along Y). -/
def xBar (cell_size groove_w groove_d py_min py_max : ℚ) (gx : Int) : Bar :=
  { x := (gx : ℚ) * cell_size
    y := (py_min + py_max) / 2
    z := groove_d / 2
    sx := groove_w
    sy := py_max - py_min + groove_w * 2
    sz := groove_d }

/-- The bar placed on one Y grid line (running along X). -/
def yBar (cell_size groove_w groove_d px_min px_max : ℚ) (gy : Int) : Bar :=
  { x := (px_min + px_max) / 2
    y := (gy : ℚ) * cell_size
    z := groove_d / 2
    sx := px_max - px_min + groove_w * 2
    sy := groove_w
    sz := groove_d }

/-- Embedding of make_groove_cutter: one bar per spanned grid line on
each axis; the get_grid_lines_for_piece call raises ValueError on an
empty cell list before the no-bars null return can be reached. -/
def make_groove_cutter (cells : List Cell) (cell_size groove_w groove_d : ℚ) :
    PyResult (Option (List Bar)) :=
  match cells with
  | [] => PyResult.exn "ValueError: min() arg is an empty sequence"
  | c :: cs =>
    let piece_x_min := (cellsMinX c cs : ℚ) * cell_size
    let piece_x_max := ((cellsMaxX c cs : ℚ) + 1) * cell_size
    let piece_y_min := (cellsMinY c cs : ℚ) * cell_size
    let piece_y_max := ((cellsMaxY c cs : ℚ) + 1) * cell_size
    let xbars := (grid_lines c cs).1.map (xBar cell_size groove_w groove_d piece_y_min piece_y_max)
    let ybars := (grid_lines c cs).2.map (yBar cell_size groove_w groove_d piece_x_min piece_x_max)
    let bars := xbars ++ ybars
    if bars.isEmpty then PyResult.ok none else PyResult.ok (some bars)

theorem foldl_min_fst_le (cs : List Cell) (a : Int) :
    cs.foldl (fun m q => min m q.1) a ≤ a := by
  induction cs generalizing a with
  | nil => simp
  | cons x t ih => exact le_trans (ih (min a x.1)) (min_le_left a x.1)

theorem le_foldl_max_fst (cs : List Cell) (a : Int) :
    a ≤ cs.foldl (fun m q => max m q.1) a := by
  induction cs generalizing a with
  | nil => simp
  | cons x t ih => exact le_trans (le_max_left a x.1) (ih (max a x.1))

theorem foldl_min_snd_le (cs : List Cell) (a : Int) :
    cs.foldl (fun m q => min m q.2) a ≤ a := by
  induction cs generalizing a with
  | nil => simp
  | cons x t ih => exact le_trans (ih (min a x.2)) (min_le_left a x.2)

theorem le_foldl_max_snd (cs : List Cell) (a : Int) :
    a ≤ cs.foldl (fun m q => max m q.2) a := by
  induction cs generalizing a with
  | nil => simp
  | cons x t ih => exact le_trans (le_max_left a x.2) (ih (max a x.2))

theorem cellsMinX_le_cellsMaxX (c : Cell) (cs : List Cell) :
    cellsMinX c cs ≤ cellsMaxX c cs :=
  le_trans (foldl_min_fst_le cs c.1) (le_foldl_max_fst cs c.1)

theorem cellsMinY_le_cellsMaxY (c : Cell) (cs : List Cell) :
    cellsMinY c cs ≤ cellsMaxY c cs :=
  le_trans (foldl_min_snd_le cs c.2) (le_foldl_max_snd cs c.2)

theorem intRange_length (lo hi : Int) : (intRange lo hi).length = (hi - lo).toNat := by
  rw [intRange, List.length_map, List.length_range]

theorem mem_intRange {lo hi a : Int} (h : a ∈ intRange lo hi) : lo ≤ a ∧ a < hi := by
  simp only [intRange, List.mem_map, List.mem_range] at h
  obtain ⟨i, hi', rfl⟩ := h
  omega

/-- C6: for every nonempty cell set, the groove cutter builder makes
exactly (span_x + 1) + (span_y + 1) bars, where span_x and span_y are
the cell extents of the bounding footprint, and every bar overshoots
the footprint on both ends of its long axis by at least one
groove-width. -/
theorem make_groove_cutter_bars (c : Cell) (cs : List Cell)
    (cell_size groove_w groove_d : ℚ) :
    ∃ bars : List Bar,
      make_groove_cutter (c :: cs) cell_size groove_w groove_d =
        PyResult.ok (some bars) ∧
      (bars.length : Int) =
        ((cellsMaxX c cs - cellsMinX c cs + 1) + 1) +
        ((cellsMaxY c cs - cellsMinY c cs + 1) + 1) ∧
      ∀ b ∈ bars,
        (b.y - b.sy / 2 ≤ (cellsMinY c cs : ℚ) * cell_size - groove_w ∧
         ((cellsMaxY c cs : ℚ) + 1) * cell_size + groove_w ≤ b.y + b.sy / 2) ∨
        (b.x - b.sx / 2 ≤ (cellsMinX c cs : ℚ) * cell_size - groove_w ∧
         ((cellsMaxX c cs : ℚ) + 1) * cell_size + groove_w ≤ b.x + b.sx / 2) := by
  have hx := cellsMinX_le_cellsMaxX c cs
  have hy := cellsMinY_le_cellsMaxY c cs
  refine ⟨(grid_lines c cs).1.map
      (xBar cell_size groove_w groove_d ((cellsMinY c cs : ℚ) * cell_size)
        (((cellsMaxY c cs : ℚ) + 1) * cell_size)) ++
    (grid_lines c cs).2.map
      (yBar cell_size groove_w groove_d ((cellsMinX c cs : ℚ) * cell_size)
        (((cellsMaxX c cs : ℚ) + 1) * cell_size)), ?_, ?_, ?_⟩
  · show make_groove_cutter (c :: cs) cell_size groove_w groove_d = _
    simp only [make_groove_cutter]
    split
    next hemp =>
      exfalso
      rw [List.isEmpty_eq_true, List.append_eq_nil] at hemp
      obtain ⟨h1, -⟩ := hemp
      rw [List.map_eq_nil_iff] at h1
      have hl := intRange_length (cellsMinX c cs) (cellsMaxX c cs + 2)
      simp only [grid_lines] at h1
      rw [h1] at hl
      simp only [List.length_nil] at hl
      omega
    next hemp => rfl
  · simp only [List.length_append, List.length_map, grid_lines,
      intRange_length]
    omega
  · intro b hb
    rcases List.mem_append.mp hb with h | h
    · left
      obtain ⟨gx, _, rfl⟩ := List.mem_map.mp h
      constructor <;> · simp only [xBar]; ring_nf; linarith
    · right
      obtain ⟨gy, _, rfl⟩ := List.mem_map.mp h
      constructor <;> · simp only [yBar]; ring_nf; linarith

/-- C7: invoked with a piece that has no cells, make_groove_cutter does
not return the null result: the min() call over the empty coordinate
sequence raises ValueError, an unhandled error. -/
theorem make_groove_cutter_empty_raises (cell_size groove_w groove_d : ℚ) :
    make_groove_cutter [] cell_size groove_w groove_d =
      PyResult.exn "ValueError: min() arg is an empty sequence" := rfl

/-
CSG engine: embedding of apply_boolean.  The Blender modifier system
is modelled by an explicit modifier stack on the target object and an
oracle giving the outcome (new mesh, or raised exception) of applying
a boolean modifier with a given solver.  The transform_apply calls
before the attempts only normalise rotation and scale into the mesh
and do not change the solid; they are not modelled.
-/

/-- The two boolean solver tiers of the engine. -/
inductive Solver where
  | exact
  | fast
deriving DecidableEq, Repr

/-- A boolean modifier on the stack of a target object: its name and
its solver tier (the operation and tool are fixed by the caller). -/
structure Modifier where
  name : String
  solver : Solver
deriving DecidableEq, Repr

/-- A target object: its mesh data (abstract) and its modifier
stack. -/
structure Obj (mu : Type) where
  mesh : mu
  mods : List Modifier
deriving DecidableEq, Repr

/-- modifiers.new: append a modifier to the stack. -/
def addModifier {mu : Type} (o : Obj mu) (m : Modifier) : Obj mu :=
  { o with mods := o.mods ++ [m] }

/-- modifiers.remove: drop the modifier with the given name. -/
def removeModifier {mu : Type} (o : Obj mu) (nm : String) : Obj mu :=
  { o with mods := o.mods.filter (fun m2 => m2.name != nm) }

/-- modifier_apply: the solver either produces the new mesh (and the
applied modifier leaves the stack) or raises (none); the raising
behaviour of each solver on each mesh is an oracle parameter. -/
def applyModifier {mu : Type} (modifier_apply : Solver → mu → mu → Option mu)
    (o : Obj mu) (m : Modifier) (cutter : mu) : Option (Obj mu) :=
  match modifier_apply m.solver o.mesh cutter with
  | some mm => some { mesh := mm, mods := o.mods.filter (fun m2 => m2.name != m.name) }
  | none => none

/-- Embedding of apply_boolean: try the exact solver; on failure
remove the modifier, add a fast-solver modifier and try once more; on
a second failure remove it (after the name presence check) and report
failure.  The returned trace lists the solvers attempted in order. -/
def apply_boolean {mu : Type} (modifier_apply : Solver → mu → mu → Option mu)
    (target : Obj mu) (cutter : mu) : Bool × Obj mu × List Solver :=
  let mod1 : Modifier := { name := "Bool", solver := Solver.exact }
  let t1 := addModifier target mod1
  match applyModifier modifier_apply t1 mod1 cutter with
  | some t2 => (true, t2, [Solver.exact])
  | none =>
    let t2 := removeModifier t1 "Bool"
    let mod2 : Modifier := { name := "Bool2", solver := Solver.fast }
    let t3 := addModifier t2 mod2
    match applyModifier modifier_apply t3 mod2 cutter with
    | some t4 => (true, t4, [Solver.exact, Solver.fast])
    | none =>
      let t4 := if (t3.mods.map (fun m => m.name)).contains "Bool2"
        then removeModifier t3 "Bool2" else t3
      (false, t4, [Solver.exact, Solver.fast])

/-- Removing a freshly appended modifier by name restores the stack
when the name was not already on it. -/
theorem filter_append_singleton_self (l : List Modifier) (m : Modifier)
    (h : m.name ∉ l.map (fun m2 => m2.name)) :
    (l ++ [m]).filter (fun m2 => m2.name != m.name) = l := by
  rw [List.filter_append]
  have h1 : [m].filter (fun m2 => m2.name != m.name) = [] := by simp
  rw [h1, List.append_nil]
  apply List.filter_eq_self.mpr
  intro a ha
  simp only [bne_iff_ne, ne_eq, decide_eq_true_eq]
  intro hc
  exact h (List.mem_map.mpr ⟨a, ha, hc⟩)

/-- C4: the boolean engine attempts the exact solver first (trace
starts with exact); on exact-solver failure it retries exactly once
with the fast solver; and when both attempts fail it returns failure
with the target in its pre-operation state: mesh unchanged and no
boolean modifier attached. -/
theorem apply_boolean_policy {mu : Type} (modifier_apply : Solver → mu → mu → Option mu)
    (target : Obj mu) (cutter : mu)
    (hb1 : "Bool" ∉ target.mods.map (fun m => m.name))
    (hb2 : "Bool2" ∉ target.mods.map (fun m => m.name)) :
    (∀ m, modifier_apply Solver.exact target.mesh cutter = some m →
      apply_boolean modifier_apply target cutter =
        (true, ({ mesh := m, mods := target.mods } : Obj mu), [Solver.exact])) ∧
    (∀ m, modifier_apply Solver.exact target.mesh cutter = none →
      modifier_apply Solver.fast target.mesh cutter = some m →
      apply_boolean modifier_apply target cutter =
        (true, ({ mesh := m, mods := target.mods } : Obj mu), [Solver.exact, Solver.fast])) ∧
    (modifier_apply Solver.exact target.mesh cutter = none →
      modifier_apply Solver.fast target.mesh cutter = none →
      apply_boolean modifier_apply target cutter =
        (false, target, [Solver.exact, Solver.fast])) := by
  have hf1 : (target.mods ++ [({ name := "Bool", solver := Solver.exact } : Modifier)]).filter
      (fun m2 => m2.name != "Bool") = target.mods :=
    filter_append_singleton_self target.mods ({ name := "Bool", solver := Solver.exact } : Modifier) hb1
  have hf2 : (target.mods ++ [({ name := "Bool2", solver := Solver.fast } : Modifier)]).filter
      (fun m2 => m2.name != "Bool2") = target.mods :=
    filter_append_singleton_self target.mods ({ name := "Bool2", solver := Solver.fast } : Modifier) hb2
  refine ⟨?_, ?_, ?_⟩
  · intro m hm
    simp only [apply_boolean, applyModifier, addModifier, hm, hf1]
  · intro m h1 h2
    simp only [apply_boolean, applyModifier, addModifier, removeModifier, h1, h2, hf1, hf2]
  · intro h1 h2
    simp only [apply_boolean, applyModifier, addModifier, removeModifier, h1, h2, hf1]
    have hc : ((target.mods ++ [({ name := "Bool2", solver := Solver.fast } : Modifier)]).map
        (fun m => m.name)).contains "Bool2" = true := by
      simp
    rw [if_pos hc, hf2]

/-- Witness for C4: an oracle on which both solvers fail, a target
with mesh 0 and an empty stack: the result is failure, the unchanged
target, and the attempt trace exact then fast. -/
theorem apply_boolean_policy_witness :
    apply_boolean (fun (_ : Solver) (_ _ : Nat) => none) ({ mesh := 0, mods := [] } : Obj Nat) 0 =
      (false, ({ mesh := 0, mods := [] } : Obj Nat), [Solver.exact, Solver.fast]) :=
  (apply_boolean_policy (fun _ _ _ => none) { mesh := 0, mods := [] } 0
    (by simp) (by simp)).2.2 rfl rfl

/-
Board tile builder: the tile cell ranges and the dowel joinery blocks
of create_board_tile.  A Dowel records one cylinder: its kind (post,
or hole marked _is_hole for later subtraction), centre location,
radius and depth.
-/

/-- cells_per_tile along one axis: the fixed 20-cell board divided by
the split count (integer division). -/
def cells_per_tile (split : Nat) : Nat := 20 / split

/-- cx_start: first cell index of tile tx. -/
def cx_start (p : Params) (tx : Nat) : Nat := tx * cells_per_tile p.split_x

/-- cx_end: one past the last cell index of tile tx. -/
def cx_end (p : Params) (tx : Nat) : Nat := cx_start p tx + cells_per_tile p.split_x

/-- cy_start: first cell index of tile ty. -/
def cy_start (p : Params) (ty : Nat) : Nat := ty * cells_per_tile p.split_y

/-- cy_end: one past the last cell index of tile ty. -/
def cy_end (p : Params) (ty : Nat) : Nat := cy_start p ty + cells_per_tile p.split_y

/-- Post or hole. -/
inductive DowelKind where
  | post
  | hole
deriving DecidableEq, Repr

/-- One dowel cylinder of a tile. -/
structure Dowel where
  kind : DowelKind
  x : ℚ
  y : ℚ
  z : ℚ
  radius : ℚ
  depth : ℚ
deriving DecidableEq, Repr

/-- The common z centre of every dowel cylinder: below the base. -/
def dowel_z (p : Params) : ℚ := -p.board_t - p.dowel_len / 2

/-- mid_y of the edge of tile ty. -/
def mid_y (p : Params) (ty : Nat) : ℚ := ((cy_start p ty + cy_end p ty : Nat) : ℚ) * p.cell / 2

/-- spacing of the two dowels on a vertical edge. -/
def spacing_y (p : Params) (ty : Nat) : ℚ := ((cy_end p ty - cy_start p ty : Nat) : ℚ) * p.cell / 3

/-- mid_x of the edge of tile tx. -/
def mid_x (p : Params) (tx : Nat) : ℚ := ((cx_start p tx + cx_end p tx : Nat) : ℚ) * p.cell / 2

/-- spacing of the two dowels on a horizontal edge. -/
def spacing_x (p : Params) (tx : Nat) : ℚ := ((cx_end p tx - cx_start p tx : Nat) : ℚ) * p.cell / 3

/-- Right-edge dowel posts of tile (tx, ty): emitted when
tile_x < split_x - 1, at the right cell boundary. -/
def dowels_right (p : Params) (tx ty : Nat) : List Dowel :=
  if tx < p.split_x - 1 then
    [ ⟨DowelKind.post, (cx_end p tx : ℚ) * p.cell, mid_y p ty - spacing_y p ty / 2,
        dowel_z p, p.dowel_d / 2, p.dowel_len⟩,
      ⟨DowelKind.post, (cx_end p tx : ℚ) * p.cell, mid_y p ty + spacing_y p ty / 2,
        dowel_z p, p.dowel_d / 2, p.dowel_len⟩ ]
  else []

/-- Left-edge dowel holes of tile (tx, ty): emitted when tile_x > 0,
radius inflated by dowel_clear, depth inflated by 0.5. -/
def dowels_left (p : Params) (tx ty : Nat) : List Dowel :=
  if tx > 0 then
    [ ⟨DowelKind.hole, (cx_start p tx : ℚ) * p.cell, mid_y p ty - spacing_y p ty / 2,
        dowel_z p, p.dowel_d / 2 + p.dowel_clear, p.dowel_len + 0.5⟩,
      ⟨DowelKind.hole, (cx_start p tx : ℚ) * p.cell, mid_y p ty + spacing_y p ty / 2,
        dowel_z p, p.dowel_d / 2 + p.dowel_clear, p.dowel_len + 0.5⟩ ]
  else []

/-- Top-edge dowel posts of tile (tx, ty): emitted when
tile_y < split_y - 1. -/
def dowels_top (p : Params) (tx ty : Nat) : List Dowel :=
  if ty < p.split_y - 1 then
    [ ⟨DowelKind.post, mid_x p tx - spacing_x p tx / 2, (cy_end p ty : ℚ) * p.cell,
        dowel_z p, p.dowel_d / 2, p.dowel_len⟩,
      ⟨DowelKind.post, mid_x p tx + spacing_x p tx / 2, (cy_end p ty : ℚ) * p.cell,
        dowel_z p, p.dowel_d / 2, p.dowel_len⟩ ]
  else []

/-- Bottom-edge dowel holes of tile (tx, ty): emitted when tile_y > 0. -/
def dowels_bottom (p : Params) (tx ty : Nat) : List Dowel :=
  if ty > 0 then
    [ ⟨DowelKind.hole, mid_x p tx - spacing_x p tx / 2, (cy_start p ty : ℚ) * p.cell,
        dowel_z p, p.dowel_d / 2 + p.dowel_clear, p.dowel_len + 0.5⟩,
      ⟨DowelKind.hole, mid_x p tx + spacing_x p tx / 2, (cy_start p ty : ℚ) * p.cell,
        dowel_z p, p.dowel_d / 2 + p.dowel_clear, p.dowel_len + 0.5⟩ ]
  else []

/-- All dowel cylinders emitted by create_board_tile for one tile, in
source order. -/
def tile_dowels (p : Params) (tx ty : Nat) : List Dowel :=
  dowels_right p tx ty ++ dowels_left p tx ty ++ dowels_top p tx ty ++ dowels_bottom p tx ty

/-- C2 counterexample: with the default parameters (split 2 x 2), the
shared boundary of tiles (0,0) and (1,0) lies at x = 200; the two
cylinders there of tile (0,0) - the smaller index - are the posts, and
the two of tile (1,0) - the larger index - are the holes, the reverse
of the claimed assignment (the inflations themselves are as claimed). -/
theorem dowel_posts_not_on_larger_tile :
    tile_dowels defaultParams 0 0 =
      [ ⟨DowelKind.post, 200, 200/3, -3.8, 3, 4⟩,
        ⟨DowelKind.post, 200, 400/3, -3.8, 3, 4⟩,
        ⟨DowelKind.post, 200/3, 200, -3.8, 3, 4⟩,
        ⟨DowelKind.post, 400/3, 200, -3.8, 3, 4⟩ ] ∧
    tile_dowels defaultParams 1 0 =
      [ ⟨DowelKind.hole, 200, 200/3, -3.8, 3.2, 4.5⟩,
        ⟨DowelKind.hole, 200, 400/3, -3.8, 3.2, 4.5⟩,
        ⟨DowelKind.post, 800/3, 200, -3.8, 3, 4⟩,
        ⟨DowelKind.post, 1000/3, 200, -3.8, 3, 4⟩ ] := by
  norm_num [tile_dowels, dowels_right, dowels_left, dowels_top, dowels_bottom,
    mid_x, mid_y, spacing_x, spacing_y, dowel_z, cx_start, cx_end, cy_start, cy_end,
    cells_per_tile, defaultParams]

/-- C2 (amended): for every pair of tiles adjacent along an axis, the
two dowel posts are emitted by the tile with the SMALLER index (on its
right or top edge) and the two matching holes by the tile with the
larger index (on its left or bottom edge), at identical locations,
with hole radius inflated by dowel_clear and hole depth inflated by
0.5 mm over the post dimensions. -/
theorem dowel_pairs_lower_index_posts (p : Params) (tx ty : Nat) :
    (tx + 1 < p.split_x →
      dowels_right p tx ty =
        [ ⟨DowelKind.post, (cx_end p tx : ℚ) * p.cell, mid_y p ty - spacing_y p ty / 2,
            dowel_z p, p.dowel_d / 2, p.dowel_len⟩,
          ⟨DowelKind.post, (cx_end p tx : ℚ) * p.cell, mid_y p ty + spacing_y p ty / 2,
            dowel_z p, p.dowel_d / 2, p.dowel_len⟩ ] ∧
      dowels_left p (tx + 1) ty =
        [ ⟨DowelKind.hole, (cx_end p tx : ℚ) * p.cell, mid_y p ty - spacing_y p ty / 2,
            dowel_z p, p.dowel_d / 2 + p.dowel_clear, p.dowel_len + 0.5⟩,
          ⟨DowelKind.hole, (cx_end p tx : ℚ) * p.cell, mid_y p ty + spacing_y p ty / 2,
            dowel_z p, p.dowel_d / 2 + p.dowel_clear, p.dowel_len + 0.5⟩ ]) ∧
    (ty + 1 < p.split_y →
      dowels_top p tx ty =
        [ ⟨DowelKind.post, mid_x p tx - spacing_x p tx / 2, (cy_end p ty : ℚ) * p.cell,
            dowel_z p, p.dowel_d / 2, p.dowel_len⟩,
          ⟨DowelKind.post, mid_x p tx + spacing_x p tx / 2, (cy_end p ty : ℚ) * p.cell,
            dowel_z p, p.dowel_d / 2, p.dowel_len⟩ ] ∧
      dowels_bottom p tx (ty + 1) =
        [ ⟨DowelKind.hole, mid_x p tx - spacing_x p tx / 2, (cy_end p ty : ℚ) * p.cell,
            dowel_z p, p.dowel_d / 2 + p.dowel_clear, p.dowel_len + 0.5⟩,
          ⟨DowelKind.hole, mid_x p tx + spacing_x p tx / 2, (cy_end p ty : ℚ) * p.cell,
            dowel_z p, p.dowel_d / 2 + p.dowel_clear, p.dowel_len + 0.5⟩ ]) := by
  constructor
  · intro hx
    have h1 : tx < p.split_x - 1 := by omega
    have h2 : cx_start p (tx + 1) = cx_end p tx := by
      simp [cx_start, cx_end, Nat.succ_mul]
    constructor
    · rw [dowels_right, if_pos h1]
    · rw [dowels_left, if_pos (Nat.succ_pos tx), h2]
  · intro hy
    have h1 : ty < p.split_y - 1 := by omega
    have h2 : cy_start p (ty + 1) = cy_end p ty := by
      simp [cy_start, cy_end, Nat.succ_mul]
    constructor
    · rw [dowels_top, if_pos h1]
    · rw [dowels_bottom, if_pos (Nat.succ_pos ty), h2]

/-- Witness for the amended C2 with the default parameters at the tile
pairs (0,0)-(1,0) and (0,0)-(0,1). -/
theorem dowel_pairs_lower_index_posts_witness :
    (dowels_right defaultParams 0 0 =
      [ ⟨DowelKind.post, (cx_end defaultParams 0 : ℚ) * defaultParams.cell,
          mid_y defaultParams 0 - spacing_y defaultParams 0 / 2,
          dowel_z defaultParams, defaultParams.dowel_d / 2, defaultParams.dowel_len⟩,
        ⟨DowelKind.post, (cx_end defaultParams 0 : ℚ) * defaultParams.cell,
          mid_y defaultParams 0 + spacing_y defaultParams 0 / 2,
          dowel_z defaultParams, defaultParams.dowel_d / 2, defaultParams.dowel_len⟩ ] ∧
    dowels_left defaultParams 1 0 =
      [ ⟨DowelKind.hole, (cx_end defaultParams 0 : ℚ) * defaultParams.cell,
          mid_y defaultParams 0 - spacing_y defaultParams 0 / 2,
          dowel_z defaultParams, defaultParams.dowel_d / 2 + defaultParams.dowel_clear,
          defaultParams.dowel_len + 0.5⟩,
        ⟨DowelKind.hole, (cx_end defaultParams 0 : ℚ) * defaultParams.cell,
          mid_y defaultParams 0 + spacing_y defaultParams 0 / 2,
          dowel_z defaultParams, defaultParams.dowel_d / 2 + defaultParams.dowel_clear,
          defaultParams.dowel_len + 0.5⟩ ]) :=
  (dowel_pairs_lower_index_posts defaultParams 0 0).1 (by norm_num [defaultParams])

/-- The cell index range [start, stop) of tile t along one axis of the
split board, as in create_board_tile. -/
def tile_cell_range (split t : Nat) : Nat × Nat :=
  (t * cells_per_tile split, t * cells_per_tile split + cells_per_tile split)

/-- The union over all tiles of one axis of their covered cell
indices. -/
def covered_cells (split : Nat) : Finset Nat :=
  (Finset.range split).biUnion
    (fun t => Finset.Ico (tile_cell_range split t).1 (tile_cell_range split t).2)

/-- C10: along each axis the tiles cover exactly the first
split * (20 / split) of the 20 cell indices; whenever the split count
does not divide 20, this is fewer than 20, so the remaining cells are
covered by no tile (silently dropped). -/
theorem board_cells_dropped :
    (∀ split : Nat, covered_cells split = Finset.range (split * cells_per_tile split)) ∧
    (∀ split : Nat, 0 < split → ¬ split ∣ 20 → split * cells_per_tile split < 20) := by
  constructor
  · intro split
    ext c
    simp only [covered_cells, tile_cell_range, Finset.mem_biUnion, Finset.mem_range,
      Finset.mem_Ico]
    constructor
    · rintro ⟨t, ht, h1, h2⟩
      calc c < t * cells_per_tile split + cells_per_tile split := h2
        _ = (t + 1) * cells_per_tile split := by ring
        _ ≤ split * cells_per_tile split := Nat.mul_le_mul_right _ ht
    · intro hc
      rcases Nat.eq_zero_or_pos (cells_per_tile split) with hk | hk
      · rw [hk, Nat.mul_zero] at hc
        exact absurd hc (Nat.not_lt_zero c)
      · refine ⟨c / cells_per_tile split, ?_, Nat.div_mul_le_self c _, ?_⟩
        · exact (Nat.div_lt_iff_lt_mul hk).mpr hc
        · have hmod : c % cells_per_tile split < cells_per_tile split := Nat.mod_lt c hk
          have hdm : cells_per_tile split * (c / cells_per_tile split) + c % cells_per_tile split = c :=
            Nat.div_add_mod c _
          calc c = cells_per_tile split * (c / cells_per_tile split) + c % cells_per_tile split :=
              hdm.symm
            _ < cells_per_tile split * (c / cells_per_tile split) + cells_per_tile split :=
              Nat.add_lt_add_left hmod _
            _ = c / cells_per_tile split * cells_per_tile split + cells_per_tile split := by ring
  · intro split hpos hdvd
    rcases Nat.lt_or_ge (split * cells_per_tile split) 20 with h | h
    · exact h
    · exfalso
      have hle : split * cells_per_tile split ≤ 20 := by
        calc split * cells_per_tile split = cells_per_tile split * split := Nat.mul_comm _ _
          _ ≤ 20 := Nat.div_mul_le_self 20 split
      exact hdvd ⟨cells_per_tile split, (le_antisymm hle h).symm⟩

/-- Witness for C10 at split = 3: the tiles cover exactly
3 * (20 / 3) = 18 of the 20 cells. -/
theorem board_cells_dropped_witness :
    covered_cells 3 = Finset.range (3 * cells_per_tile 3) ∧ 3 * cells_per_tile 3 < 20 :=
  ⟨board_cells_dropped.1 3, board_cells_dropped.2 3 (by decide) (by decide)⟩

/-
Packing layout engine: embedding of layout_pieces_shelf.  Only the
bounding boxes matter: the source reads each object bound_box, moves
the object so that the box min corner lands on the cursor, and mutates
nothing else; the embedding returns the list of placed boxes.
-/

/-- The plate-plane bounding box of one piece object (the x and y
extent of bound_box). -/
structure BBox where
  x_min : ℚ
  y_min : ℚ
  x_max : ℚ
  y_max : ℚ
deriving DecidableEq, Repr

/-- bbox_area: the footprint area used as the sort key. -/
def bbox_area (b : BBox) : ℚ := (b.x_max - b.x_min) * (b.y_max - b.y_min)

/-- A real bound_box has nonnegative extents. -/
def bbox_wf (b : BBox) : Prop := b.x_min ≤ b.x_max ∧ b.y_min ≤ b.y_max

/-- The mutable state of the shelf loop: cursor_x, cursor_y,
row_height. -/
structure ShelfState where
  cursor_x : ℚ
  cursor_y : ℚ
  row_height : ℚ
deriving DecidableEq, Repr

/-- One iteration of the placement loop: wrap to a new row when the
piece would exceed the row width and the cursor has advanced, place
the piece with its bounding-box min corner at the cursor, advance the
cursor and update the row height. -/
def shelf_step (gap max_row_width : ℚ) (st : ShelfState) (b : BBox) :
    ShelfState × BBox :=
  let w := b.x_max - b.x_min
  let h := b.y_max - b.y_min
  let st2 := if st.cursor_x + w > max_row_width ∧ st.cursor_x > 0
    then { cursor_x := 0, cursor_y := st.cursor_y + st.row_height + gap, row_height := 0 }
    else st
  ({ cursor_x := st2.cursor_x + w + gap, cursor_y := st2.cursor_y,
     row_height := max st2.row_height h },
   { x_min := st2.cursor_x, y_min := st2.cursor_y,
     x_max := st2.cursor_x + w, y_max := st2.cursor_y + h })

/-- The placement loop over the sorted pieces; returns the placed
bounding boxes in placement order. -/
def shelf_run (gap max_row_width : ℚ) : ShelfState → List BBox → List BBox
  | _, [] => []
  | st, b :: bs =>
    (shelf_step gap max_row_width st b).2 ::
      shelf_run gap max_row_width (shelf_step gap max_row_width st b).1 bs

/-- Embedding of layout_pieces_shelf: stable sort by bounding-box
area descending (Python list.sort with reverse=True is the stable
descending sort, i.e. insertion sort with the reversed relation),
then the shelf loop from the origin with row width cell * 25. -/
def layout_pieces_shelf (piece_objects : List BBox) (gap cell : ℚ) : List BBox :=
  let sorted := List.insertionSort (fun a b => bbox_area b ≤ bbox_area a) piece_objects
  shelf_run gap (cell * 25) { cursor_x := 0, cursor_y := 0, row_height := 0 } sorted

/-- Two placed boxes overlap when their interiors intersect in both
axes. -/
def bbox_overlap (a b : BBox) : Prop :=
  a.x_min < b.x_max ∧ b.x_min < a.x_max ∧ a.y_min < b.y_max ∧ b.y_min < a.y_max

/-- Loop invariant of the shelf layout: the cursor and row height are
nonnegative, and every already placed box either sits in the current
row (at the cursor height, ending at least a gap before the cursor,
no taller than the row height) or ends at least a gap below the
cursor row. -/
def ShelfInv (gap : ℚ) (st : ShelfState) (done : List BBox) : Prop :=
  0 ≤ st.cursor_x ∧ 0 ≤ st.row_height ∧
  ∀ d ∈ done,
    (d.y_min = st.cursor_y ∧ d.x_max + gap ≤ st.cursor_x ∧
      d.y_max - d.y_min ≤ st.row_height) ∨
    (d.y_max + gap ≤ st.cursor_y)

/-- One placement step preserves the invariant and the new box does
not overlap any already placed box. -/
theorem shelf_step_inv (gap mrw : ℚ) (hgap : 0 ≤ gap) (st : ShelfState)
    (b : BBox) (hwf : bbox_wf b) (done : List BBox) (hinv : ShelfInv gap st done) :
    ShelfInv gap (shelf_step gap mrw st b).1 (done ++ [(shelf_step gap mrw st b).2]) ∧
    ∀ d ∈ done, ¬ bbox_overlap d (shelf_step gap mrw st b).2 := by
  obtain ⟨hw1, hw2⟩ := hwf
  obtain ⟨hx0, hr0, hmem⟩ := hinv
  simp only [shelf_step, ShelfInv, bbox_overlap]
  split_ifs with hwrap <;> (try dsimp only)
  · -- wrap: place at (0, cursor_y + row_height + gap)
    have hmax : (0 : ℚ) ≤ max 0 (b.y_max - b.y_min) := le_max_left 0 _
    have hmax2 : b.y_max - b.y_min ≤ max 0 (b.y_max - b.y_min) := le_max_right 0 _
    refine ⟨⟨by linarith, hmax, ?_⟩, ?_⟩
    · intro d hd
      rcases List.mem_append.mp hd with hd | hd
      · right
        rcases hmem d hd with ⟨h1, h2, h3⟩ | h1 <;> linarith
      · left
        simp only [List.mem_singleton] at hd
        subst hd
        try dsimp only
        exact ⟨rfl, by linarith, by linarith⟩
    · intro d hd hov
      obtain ⟨o1, o2, o3, o4⟩ := hov
      try dsimp only at o3 o4
      rcases hmem d hd with ⟨h1, h2, h3⟩ | h1 <;> linarith
  · -- no wrap: place at (cursor_x, cursor_y)
    have hmax : (0 : ℚ) ≤ max st.row_height (b.y_max - b.y_min) :=
      le_trans hr0 (le_max_left _ _)
    have hmax2 : b.y_max - b.y_min ≤ max st.row_height (b.y_max - b.y_min) := le_max_right _ _
    have hmax3 : st.row_height ≤ max st.row_height (b.y_max - b.y_min) := le_max_left _ _
    refine ⟨⟨by linarith, hmax, ?_⟩, ?_⟩
    · intro d hd
      rcases List.mem_append.mp hd with hd | hd
      · rcases hmem d hd with ⟨h1, h2, h3⟩ | h1
        · left
          exact ⟨h1, by linarith, by linarith⟩
        · right
          exact h1
      · left
        simp only [List.mem_singleton] at hd
        subst hd
        try dsimp only
        exact ⟨rfl, by linarith, by linarith⟩
    · intro d hd hov
      obtain ⟨o1, o2, o3, o4⟩ := hov
      try dsimp only at o2 o4
      rcases hmem d hd with ⟨h1, h2, h3⟩ | h1
      · linarith
      · linarith

/-- The boxes placed by a run never overlap the previously placed
boxes nor each other. -/
theorem shelf_run_no_overlap (gap mrw : ℚ) (hgap : 0 ≤ gap) :
    ∀ (bs : List BBox) (st : ShelfState) (done : List BBox),
      (∀ b ∈ bs, bbox_wf b) → ShelfInv gap st done →
      (∀ d ∈ done, ∀ c ∈ shelf_run gap mrw st bs, ¬ bbox_overlap d c) ∧
      List.Pairwise (fun a c => ¬ bbox_overlap a c) (shelf_run gap mrw st bs) := by
  intro bs
  induction bs with
  | nil =>
    intro st done hwf hinv
    exact ⟨fun d hd c hc => absurd hc (by simp [shelf_run]), by simp [shelf_run]⟩
  | cons b bs ih =>
    intro st done hwf hinv
    have hstep := shelf_step_inv gap mrw hgap st b (hwf b (List.mem_cons_self b bs)) done hinv
    have hrest := ih (shelf_step gap mrw st b).1 (done ++ [(shelf_step gap mrw st b).2])
      (fun x hx => hwf x (List.mem_cons_of_mem b hx)) hstep.1
    constructor
    · intro d hd c hc
      simp only [shelf_run] at hc
      rcases List.mem_cons.mp hc with rfl | hc
      · exact hstep.2 d hd
      · exact hrest.1 d (List.mem_append_left _ hd) c hc
    · simp only [shelf_run]
      refine List.Pairwise.cons ?_ hrest.2
      intro c hc
      exact hrest.1 _ (List.mem_append_right _ (List.mem_singleton_self _)) c hc

/-- Consecutive placements either stay in the row with the x cursor
advanced by width plus gap, or wrap to the start of a row no lower
than the current one; and the first placement sits at the cursor or
at the start of a wrapped row. -/
theorem shelf_run_chain (gap mrw : ℚ) (hgap : 0 ≤ gap) :
    ∀ (bs : List BBox) (st : ShelfState), 0 ≤ st.row_height →
      List.Chain' (fun a c => (c.y_min = a.y_min ∧ c.x_min = a.x_max + gap) ∨
        (a.y_min ≤ c.y_min ∧ c.x_min = 0)) (shelf_run gap mrw st bs) ∧
      (∀ c ∈ (shelf_run gap mrw st bs).head?,
        (c.y_min = st.cursor_y ∧ c.x_min = st.cursor_x) ∨
        (st.cursor_y ≤ c.y_min ∧ c.x_min = 0)) := by
  intro bs
  induction bs with
  | nil =>
    intro st hrh
    exact ⟨List.chain'_nil, by simp [shelf_run]⟩
  | cons b bs ih =>
    intro st hrh
    have hrh' : 0 ≤ (shelf_step gap mrw st b).1.row_height := by
      simp only [shelf_step]
      split_ifs <;> (try dsimp only)
      · exact le_max_left 0 _
      · exact le_trans hrh (le_max_left _ _)
    have hy' : (shelf_step gap mrw st b).1.cursor_y = (shelf_step gap mrw st b).2.y_min := by
      simp only [shelf_step]
    have hx' : (shelf_step gap mrw st b).1.cursor_x = (shelf_step gap mrw st b).2.x_max + gap := by
      simp only [shelf_step]
    have hih := ih (shelf_step gap mrw st b).1 hrh'
    constructor
    · simp only [shelf_run]
      rw [List.chain'_cons']
      refine ⟨?_, hih.1⟩
      intro y hy
      rcases hih.2 y hy with ⟨h1, h2⟩ | ⟨h1, h2⟩
      · left
        exact ⟨by rw [h1, hy'], by rw [h2, hx']⟩
      · right
        exact ⟨by rw [← hy']; exact h1, h2⟩
    · intro c hc
      simp only [shelf_run, List.head?_cons, Option.mem_def, Option.some.injEq] at hc
      subst hc
      simp only [shelf_step]
      split_ifs with hw <;> (try dsimp only)
      · right
        constructor
        · linarith
        · rfl
      · left
        exact ⟨rfl, rfl⟩

instance : IsTotal BBox (fun a c => bbox_area c ≤ bbox_area a) := ⟨fun a c => le_total (bbox_area c) (bbox_area a)⟩

instance : IsTrans BBox (fun a c => bbox_area c ≤ bbox_area a) :=
  ⟨fun _ _ _ h1 h2 => le_trans h2 h1⟩

/-- C9: for every nonempty piece list with well-formed bounding boxes
and every gap at least 0, the shelf layout places a piece of maximal
bounding-box area first with its min corner at (0,0), the x cursor
advances monotonically within a row until a wrap occurs (consecutive
placements share the row and advance by width plus gap, or wrap to
x = 0 on a row no lower), and no two placed boxes overlap. -/
theorem layout_pieces_shelf_spec (pieces : List BBox) (gap cell : ℚ)
    (hne : pieces ≠ []) (hgap : 0 ≤ gap)
    (hwf : ∀ b ∈ pieces, bbox_wf b) :
    ∃ hd tl, layout_pieces_shelf pieces gap cell = hd :: tl ∧
      hd.x_min = 0 ∧ hd.y_min = 0 ∧
      (∀ b ∈ pieces, bbox_area b ≤ bbox_area hd) ∧
      List.Pairwise (fun a c => ¬ bbox_overlap a c) (hd :: tl) ∧
      List.Chain' (fun a c => (c.y_min = a.y_min ∧ c.x_min = a.x_max + gap) ∨
        (a.y_min ≤ c.y_min ∧ c.x_min = 0)) (hd :: tl) := by
  have hperm := List.perm_insertionSort (fun a c => bbox_area c ≤ bbox_area a) pieces
  have hsorted := List.sorted_insertionSort (fun a c => bbox_area c ≤ bbox_area a) pieces
  set sorted := List.insertionSort (fun a c => bbox_area c ≤ bbox_area a) pieces with hsdef
  have hsne : sorted ≠ [] := by
    intro h
    rw [h] at hperm
    exact hne (List.Perm.nil_eq hperm).symm
  obtain ⟨s0, ss, hs⟩ := List.exists_cons_of_ne_nil hsne
  have hwfs : ∀ b ∈ sorted, bbox_wf b := fun b hb => hwf b (hperm.mem_iff.mp hb)
  have hrun : layout_pieces_shelf pieces gap cell =
      shelf_run gap (cell * 25) { cursor_x := 0, cursor_y := 0, row_height := 0 } sorted := rfl
  have hstep0 : shelf_step gap (cell * 25)
      { cursor_x := 0, cursor_y := 0, row_height := 0 } s0 =
      ({ cursor_x := 0 + (s0.x_max - s0.x_min) + gap, cursor_y := 0,
         row_height := max 0 (s0.y_max - s0.y_min) },
       { x_min := 0, y_min := 0, x_max := 0 + (s0.x_max - s0.x_min),
         y_max := 0 + (s0.y_max - s0.y_min) }) := by
    simp only [shelf_step]
    rw [if_neg]
    rintro ⟨-, h0⟩
    exact absurd h0 (lt_irrefl 0)
  refine ⟨(shelf_step gap (cell * 25) { cursor_x := 0, cursor_y := 0, row_height := 0 } s0).2,
    shelf_run gap (cell * 25)
      (shelf_step gap (cell * 25) { cursor_x := 0, cursor_y := 0, row_height := 0 } s0).1 ss,
    ?_, ?_, ?_, ?_, ?_, ?_⟩
  · rw [hrun, hs]
    simp only [shelf_run]
  · rw [hstep0]
  · rw [hstep0]
  · intro b hb
    have harea : bbox_area (shelf_step gap (cell * 25)
        { cursor_x := 0, cursor_y := 0, row_height := 0 } s0).2 = bbox_area s0 := by
      rw [hstep0]
      simp only [bbox_area]
      ring
    rw [harea]
    have hbs : b ∈ sorted := hperm.mem_iff.mpr hb
    rw [hs] at hbs
    rcases List.mem_cons.mp hbs with rfl | hbs
    · exact le_refl _
    · rw [hs] at hsorted
      exact (List.sorted_cons.mp hsorted).1 b hbs
  · have h := (shelf_run_no_overlap gap (cell * 25) hgap sorted
      { cursor_x := 0, cursor_y := 0, row_height := 0 } [] hwfs
      ⟨le_refl 0, le_refl 0, by simp⟩).2
    rw [hs] at h
    simpa only [shelf_run] using h
  · have h := (shelf_run_chain gap (cell * 25) hgap sorted
      { cursor_x := 0, cursor_y := 0, row_height := 0 } (le_refl 0)).1
    rw [hs] at h
    simpa only [shelf_run] using h

/-- Three unit-height pieces of widths 3, 1 and 2. -/
def demoPieces : List BBox :=
  [ { x_min := 0, y_min := 0, x_max := 3, y_max := 1 },
    { x_min := 0, y_min := 0, x_max := 1, y_max := 1 },
    { x_min := 0, y_min := 0, x_max := 2, y_max := 1 } ]

/-- Witness for C9: the three-piece example with gap 1 and cell 1. -/
theorem layout_pieces_shelf_spec_witness :
    ∃ hd tl, layout_pieces_shelf demoPieces 1 1 = hd :: tl ∧
      hd.x_min = 0 ∧ hd.y_min = 0 ∧
      (∀ b ∈ demoPieces, bbox_area b ≤ bbox_area hd) ∧
      List.Pairwise (fun a c => ¬ bbox_overlap a c) (hd :: tl) ∧
      List.Chain' (fun a c => (c.y_min = a.y_min ∧ c.x_min = a.x_max + 1) ∨
        (a.y_min ≤ c.y_min ∧ c.x_min = 0)) (hd :: tl) :=
  layout_pieces_shelf_spec demoPieces 1 1 (by simp [demoPieces]) (by norm_num)
    (by
      intro b hb
      simp only [demoPieces, List.mem_cons, List.not_mem_nil, or_false] at hb
      rcases hb with rfl | rfl | rfl <;> exact ⟨by norm_num, by norm_num⟩)
